import Mathlib

/-!
# Acceptance uncertainties of `systematics/getPdfQcd.C`

A shallow embedding of the ROOT macro `getPdfQcd.C`.

* The QCD and alpha_s ratios and percentages and the combination (lines
  268-272, 319-336) are modelled over an ordered field `K` (exact
  arithmetic); `TMath::Sqrt`/`sqrt` is `Real.sqrt`, so everything downstream
  of a square root lives over `ℝ`.
* The PDF double ratio (lines 279-285) is modelled as the `float` value the
  code stores, with IEEE 754 rounding of the `double` quotients, of their
  conversion to `float` and of the `float` quotient, because the stored
  value decides the bin of `h_pdfratio` it is filled into. The running sums
  of the histogram, and the quotients and the square root of `GetRMS`, are
  over exact arithmetic.
* A weight histogram (`TH1F`) is represented by its bin contents.
* `TH1D` follows the ROOT 6 library calls the macro makes on `h_pdfratio`
  (`TH1::Fill`, `TAxis::FindBin`, `TH1::GetStats`, `TH1::GetStdDev`,
  `TH1::GetRMS`) and keeps what they touch: the axis, the bin contents, the
  entry count and the running sums `fTsumw`, `fTsumw2`, `fTsumwx`,
  `fTsumwx2`.
* `TFile::Get` returns a null pointer for a missing object; reading through
  a null histogram pointer is a fault that ends the run.
* File-system writes and the printed block are events of a trace; canvas
  drawing and the style macro leave no event.
-/

namespace GetPdfQcd

/-! ## Constants (lines 43-49) -/

/-- Line 43: `const int _nqcd = 9;`. -/
def _nqcd : Nat := 9

/-- Line 44: `const int _npdf = 100;`. -/
def _npdf : Nat := 100

/-- Line 47: `const TString _recdir`. -/
def _recdir : String :=
  "/gpfs/csic_users/piedra/work/CMSSW_8_0_5/src/AnalysisCMS/rootfiles/nominal/Control/"

/-- Line 49: `const bool _savefigures = false;`. -/
def _savefigures : Bool := false

/-! ## Floating-point values

The PDF double ratio of lines 279-285 passes through three `float`
variables before it reaches `TH1D::Fill`, and the value stored there decides
the bin. `FP` holds such a stored value; `FP.round` is IEEE 754 rounding to
nearest, ties to even. -/

/-- A binary floating-point value: a finite number (`num 0` is +0), -0, an
infinity with its sign, or a NaN. -/
inductive FP (K : Type) where
  | num (x : K)
  | negZero
  | inf (neg : Bool)
  | nan

/-- A binary floating-point format: the precision in bits and the exponents
of the smallest and the largest normal binade. -/
structure Format where
  prec : Nat
  emin : Int
  emax : Int

/-- C++ `float` (IEEE 754 binary32). -/
def binary32 : Format := { prec := 24, emin := -126, emax := 127 }

/-- C++ `double` (IEEE 754 binary64). -/
def binary64 : Format := { prec := 53, emin := -1022, emax := 1023 }

section Floating

variable {K : Type} [LinearOrderedField K] [FloorRing K]

/-- The integer nearest to `y`, the even one of two that are equally near. -/
def roundNE (y : K) : Int :=
  if y - ⌊y⌋ < 1 / 2 then ⌊y⌋
  else if 1 / 2 < y - ⌊y⌋ then ⌊y⌋ + 1
  else if ⌊y⌋ % 2 = 0 then ⌊y⌋
  else ⌊y⌋ + 1

/-- The number a finite value stands for (0 for -0; 0 also for the values
that are not finite, where it is not used). -/
def FP.val : FP K → K
  | .num x => x
  | _ => 0

/-- The sign bit. -/
def FP.signBit : FP K → Bool
  | .num x => decide (x < 0)
  | .negZero => true
  | .inf neg => neg
  | .nan => false

/-- The zero of a given sign. -/
def FP.zero (neg : Bool) : FP K :=
  if neg then .negZero else .num 0

/-- Rounding of a real number to the format `f`: the significand is rounded
to `f.prec` bits at the exponent of the number (at `f.emin` for subnormals);
a result of `2^(f.emax+1)` or more is an infinity. -/
def FP.round (f : Format) (x : K) : FP K :=
  if x = 0 then .num 0
  else
    let e : Int := max (Int.log 2 |x|) f.emin
    let q : K := (2 : K) ^ (e - ((f.prec : Int) - 1))
    let m : Int := roundNE (|x| / q)
    if (2 : K) ^ (f.emax + 1) ≤ (m : K) * q then .inf (decide (x < 0))
    else if m = 0 then FP.zero (decide (x < 0))
    else .num (if x < 0 then -((m : K) * q) else (m : K) * q)

/-- IEEE 754 division in the format `f`. -/
def FP.div (f : Format) (x y : FP K) : FP K :=
  match x, y with
  | .nan, _ => .nan
  | _, .nan => .nan
  | .inf _, .inf _ => .nan
  | .inf s, _ => .inf (xor s y.signBit)
  | _, .inf t => FP.zero (xor x.signBit t)
  | _, _ =>
    if y.val = 0 then
      if x.val = 0 then .nan else .inf (xor x.signBit y.signBit)
    else if x.val = 0 then FP.zero (xor x.signBit y.signBit)
    else FP.round f (x.val / y.val)

/-- Conversion of a `double` to `float`, as in the initialisation of a
`float` variable by a `double` expression. -/
def FP.toFloat : FP K → FP K
  | .num x => FP.round binary32 x
  | y => y

/-- The value of a `double` literal. -/
def toDouble (x : K) : K :=
  (FP.round binary64 x).val

/-- A finite value inside the half-open range `lo <= x < hi`. -/
def FP.inRange (lo hi : K) : FP K → Bool
  | .num x => decide (lo ≤ x) && decide (x < hi)
  | .negZero => decide (lo ≤ 0) && decide ((0 : K) < hi)
  | _ => false

end Floating

/-! ## Histograms -/

/-- Weight histogram as read from the input file: `GetBinContent bin` is the
content of bin `bin` (bin 1 is the nominal weight, bins 2-9 the QCD
variations, 10-109 the PDF replicas, 110-111 the alpha_s variations). -/
structure TH1F (K : Type) where
  GetBinContent : Nat → K

/-- One-dimensional histogram with fixed bins, as much of ROOT's `TH1D` as
`Fill` and `GetRMS` use. Bin 0 is the underflow bin and bin `fNbins + 1` the
overflow bin. -/
structure TH1D (K : Type) where
  fNbins : Nat
  fXmin : K
  fXmax : K
  fArray : Nat → K
  fEntries : Nat
  fTsumw : K
  fTsumw2 : K
  fTsumwx : K
  fTsumwx2 : K

section Histogram

variable {K : Type} [LinearOrderedField K] [FloorRing K]

/-- Constructor `new TH1D(name, title, nbins, xmin, xmax)`: an empty histogram. -/
def TH1D.new (nbins : Nat) (xmin xmax : K) : TH1D K :=
  { fNbins := nbins, fXmin := xmin, fXmax := xmax, fArray := fun _ => 0,
    fEntries := 0, fTsumw := 0, fTsumw2 := 0, fTsumwx := 0, fTsumwx2 := 0 }

/-- ROOT `TAxis::FindBin` for fixed bins: 0 below `fXmin`, `fNbins + 1` when
not below `fXmax` (a NaN is not below anything), else
`1 + int(fNbins * (x - fXmin) / (fXmax - fXmin))`. -/
def TH1D.FindBin (h : TH1D K) (x : FP K) : Nat :=
  match x with
  | .nan => h.fNbins + 1
  | .inf neg => if neg then 0 else h.fNbins + 1
  | _ =>
    if x.val < h.fXmin then 0
    else if ¬ (x.val < h.fXmax) then h.fNbins + 1
    else 1 + ⌊(h.fNbins : K) * (x.val - h.fXmin) / (h.fXmax - h.fXmin)⌋₊

/-- ROOT `TH1::Fill(x)`: count the entry and increment the bin of `x`; the
running sums are updated only when the bin is neither the underflow nor the
overflow bin (the statistics ignore overflows by default). The sums are
kept over exact arithmetic. -/
def TH1D.Fill (h : TH1D K) (x : FP K) : TH1D K :=
  let bin := h.FindBin x
  let h1 : TH1D K :=
    { h with fEntries := h.fEntries + 1,
             fArray := fun b => if b = bin then h.fArray b + 1 else h.fArray b }
  if bin = 0 ∨ bin > h.fNbins then h1
  else { h1 with fTsumw := h.fTsumw + 1, fTsumw2 := h.fTsumw2 + 1,
                 fTsumwx := h.fTsumwx + x.val, fTsumwx2 := h.fTsumwx2 + x.val * x.val }

/-- ROOT `TAxis::GetBinCenter` for fixed bins. -/
def TH1D.GetBinCenter (h : TH1D K) (bin : Nat) : K :=
  h.fXmin + ((bin : K) - 1 / 2) * ((h.fXmax - h.fXmin) / (h.fNbins : K))

/-- ROOT `TH1::GetStats`: `(stats[0], stats[1], stats[2], stats[3])`, the sums
of weights, squared weights, `w*x` and `w*x*x`. They are the running sums,
unless those are empty although entries exist, when they are rebuilt from the
bins 1..`fNbins` at their centres. -/
def TH1D.GetStats (h : TH1D K) : K × K × K × K :=
  if h.fTsumw = 0 ∧ h.fEntries > 0 then
    (List.range' 1 h.fNbins).foldl
      (fun s binx =>
        let x := h.GetBinCenter binx
        let w := h.fArray binx
        (s.1 + w, s.2.1 + |w|, s.2.2.1 + w * x, s.2.2.2 + w * x * x))
      (0, 0, 0, 0)
  else (h.fTsumw, h.fTsumw2, h.fTsumwx, h.fTsumwx2)

/-- The radicand of ROOT `TH1::GetStdDev(1)`: 0 for an empty histogram, else
`|stats[3]/stats[0] - x*x|` with `x = stats[2]/stats[0]`. -/
def TH1D.GetStdDev2 (h : TH1D K) : K :=
  let stats := h.GetStats
  if stats.1 = 0 then 0
  else
    let x := stats.2.2.1 / stats.1
    |stats.2.2.2 / stats.1 - x * x|

end Histogram

/-- ROOT `TH1::GetRMS()`, that is `GetStdDev(1)`: the square root of the
radicand above. -/
noncomputable def TH1D.GetRMS (h : TH1D ℝ) : ℝ :=
  Real.sqrt h.GetStdDev2

/-! ## The local variables of `GetPdfQcdSyst` (lines 268-336) -/

section Locals

variable {K : Type} [LinearOrderedField K] [FloorRing K]

/-- Line 268. -/
def qcd_gen_mu05 (h_weights_gen : TH1F K) : K :=
  h_weights_gen.GetBinContent 9 / h_weights_gen.GetBinContent 1

/-- Line 269. -/
def qcd_gen_mu20 (h_weights_gen : TH1F K) : K :=
  h_weights_gen.GetBinContent 5 / h_weights_gen.GetBinContent 1

/-- Line 271. -/
def qcd_rec_mu05 (h_weights_rec : TH1F K) : K :=
  h_weights_rec.GetBinContent 9 / h_weights_rec.GetBinContent 1

/-- Line 272. -/
def qcd_rec_mu20 (h_weights_rec : TH1F K) : K :=
  h_weights_rec.GetBinContent 5 / h_weights_rec.GetBinContent 1

/-- Line 279: the value the `float` variable `denominator` holds, the
`double` quotient of the two bin contents converted to `float`. -/
def denominator_float (h_weights_gen h_weights_rec : TH1F K) : FP K :=
  FP.toFloat (FP.div binary64 (.num (h_weights_rec.GetBinContent 1))
    (.num (h_weights_gen.GetBinContent 1)))

/-- Line 283, inside the loop over `i`: the value the `float` variable
`numerator` holds, the `double` quotient of the two bin contents converted
to `float`. -/
def numerator (h_weights_gen h_weights_rec : TH1F K) (i : Nat) : FP K :=
  FP.toFloat (FP.div binary64 (.num (h_weights_rec.GetBinContent i))
    (.num (h_weights_gen.GetBinContent i)))

/-- Line 285, inside the loop over `i`: the `float` quotient of the two
`float` variables. -/
def ratio (h_weights_gen h_weights_rec : TH1F K) (i : Nat) : FP K :=
  FP.div binary32 (numerator h_weights_gen h_weights_rec i)
    (denominator_float h_weights_gen h_weights_rec)

/-- Lines 277-288: `h_pdfratio` after the loop `for (int i=10; i<110; i++)`,
which fills it with `ratio` at each `i`. The axis limits are the `double`
literals `0.965` and `1.035`. -/
def h_pdfratio (h_weights_gen h_weights_rec : TH1F K) : TH1D K :=
  (List.range' 10 (110 - 10)).foldl
    (fun h i => h.Fill (ratio h_weights_gen h_weights_rec i))
    (TH1D.new 100 (toDouble 0.965) (toDouble 1.035))

/-- The values that the loop of lines 281-288 hands to `Fill`, in order. -/
def pdfRatios (h_weights_gen h_weights_rec : TH1F K) : List (FP K) :=
  (List.range' 10 (110 - 10)).map (ratio h_weights_gen h_weights_rec)

/-- Line 319. -/
def alpha_gen_265000 (h_weights_gen : TH1F K) : K :=
  h_weights_gen.GetBinContent 110 / h_weights_gen.GetBinContent 1

/-- Line 320. -/
def alpha_gen_266000 (h_weights_gen : TH1F K) : K :=
  h_weights_gen.GetBinContent 111 / h_weights_gen.GetBinContent 1

/-- Line 322. -/
def alpha_rec_265000 (h_weights_rec : TH1F K) : K :=
  h_weights_rec.GetBinContent 110 / h_weights_rec.GetBinContent 1

/-- Line 323. -/
def alpha_rec_266000 (h_weights_rec : TH1F K) : K :=
  h_weights_rec.GetBinContent 111 / h_weights_rec.GetBinContent 1

/-- Line 328. -/
def qcd_mu05 (h_weights_gen h_weights_rec : TH1F K) : K :=
  100 * |1 - qcd_rec_mu05 h_weights_rec / qcd_gen_mu05 h_weights_gen|

/-- Line 329. -/
def qcd_mu20 (h_weights_gen h_weights_rec : TH1F K) : K :=
  100 * |1 - qcd_rec_mu20 h_weights_rec / qcd_gen_mu20 h_weights_gen|

/-- Line 331. -/
def alpha_265000 (h_weights_gen h_weights_rec : TH1F K) : K :=
  100 * |1 - alpha_rec_265000 h_weights_rec / alpha_gen_265000 h_weights_gen|

/-- Line 332. -/
def alpha_266000 (h_weights_gen h_weights_rec : TH1F K) : K :=
  100 * |1 - alpha_rec_266000 h_weights_rec / alpha_gen_266000 h_weights_gen|

end Locals

/-- Line 334, over exact arithmetic. -/
noncomputable def pdf (h_weights_gen h_weights_rec : TH1F ℝ) : ℝ :=
  100 * (h_pdfratio h_weights_gen h_weights_rec).GetRMS

/-- Line 336, as a function of the three values it combines. -/
noncomputable def pdf_alpha (pdf alpha_265000 alpha_266000 : ℝ) : ℝ :=
  Real.sqrt (pdf * pdf + (alpha_265000 * alpha_265000 + alpha_266000 * alpha_266000) / 2)

/-! ## The calls (lines 197-349) -/

/-- The block printed by lines 341-348: the sample and level names and the
seven printed numbers. -/
structure Report where
  sample : String
  level : String
  nominal : ℝ
  qcd_mu05 : ℝ
  qcd_mu20 : ℝ
  alpha_265000 : ℝ
  alpha_266000 : ℝ
  pdf : ℝ
  pdf_alpha : ℝ

/-- What a run leaves behind: directories made (`gSystem->mkdir`), figures
saved (`canvas->SaveAs`) and blocks printed. -/
inductive Event where
  | mkdir (path : String)
  | SaveAs (path : String)
  | printf (r : Report)

/-- Whether an event writes to the file system. -/
def Event.isWrite : Event → Bool
  | .mkdir _ => true
  | .SaveAs _ => true
  | .printf _ => false

/-- The printed blocks of a trace, in order. -/
def reports : List Event → List Report
  | [] => []
  | .printf r :: es => r :: reports es
  | _ :: es => reports es

/-- The way a call ends without returning: a read through a null pointer. -/
inductive Fault where
  | nullPointer
  deriving DecidableEq

/-- A ROOT file opened for reading: `Get name` is the histogram stored under
`name`, if any. -/
structure TFile where
  Get : String → Option (TH1F ℝ)

/-- The files on disk, by path. -/
abbrev Disk := String → Option TFile

/-- Lines 260-263: `(new TFile(path, "read"))->Get(name)`. A missing file
gives a zombie `TFile` whose `Get` returns a null pointer, as does a missing
key of an existing file. -/
def TFile.open (disk : Disk) (path : String) (name : String) : Option (TH1F ℝ) :=
  match disk path with
  | none => none
  | some f => f.Get name

/-- Lines 341-348: the values handed to `printf`. -/
noncomputable def report (sample level : String) (h_weights_gen h_weights_rec : TH1F ℝ) :
    Report :=
  { sample := sample
    level := level
    nominal := 100 * h_weights_rec.GetBinContent 1 / h_weights_gen.GetBinContent 1
    qcd_mu05 := qcd_mu05 h_weights_gen h_weights_rec
    qcd_mu20 := qcd_mu20 h_weights_gen h_weights_rec
    alpha_265000 := alpha_265000 h_weights_gen h_weights_rec
    alpha_266000 := alpha_266000 h_weights_gen h_weights_rec
    pdf := pdf h_weights_gen h_weights_rec
    pdf_alpha := pdf_alpha (pdf h_weights_gen h_weights_rec)
      (alpha_265000 h_weights_gen h_weights_rec) (alpha_266000 h_weights_gen h_weights_rec) }

/-- Lines 256-349, with the constant `_savefigures` as a parameter. The two
histogram pointers are used unchecked: the first read of `h_weights_gen`
(line 268), then of `h_weights_rec` (line 271), faults on a null pointer.
Canvas drawing (lines 293-308) leaves no event. -/
noncomputable def GetPdfQcdSyst (savefigures : Bool) (disk : Disk)
    (sample label level : String) : Except Fault (List Event) :=
  let file := TFile.open disk (_recdir ++ sample ++ ".root")
  let h_weights_gen := file "list_vectors_weights_gen"
  let h_weights_rec := file ("list_vectors_weights_" ++ level)
  match h_weights_gen with
  | none => .error .nullPointer
  | some gen =>
    match h_weights_rec with
    | none => .error .nullPointer
    | some rec =>
      .ok ((if savefigures then
              [Event.SaveAs ("figures/pdfacceptance_" ++ sample ++ "_" ++ level ++ ".pdf"),
               Event.SaveAs ("figures/pdfacceptance_" ++ sample ++ "_" ++ level ++ ".png")]
            else [])
           ++ [Event.printf (report sample level gen rec)])

/-- Lines 203-225: the calls of `getPdfQcd`, as (sample, label, level). -/
def calls : List (String × String × String) :=
  [("HWminusJ_HToTauTau_M125", "", "wh3l"),
   ("HWminusJ_HToWW_M125", "", "wh3l"),
   ("HWplusJ_HToTauTau_M125", "", "wh3l"),
   ("HWplusJ_HToWW_M125", "", "wh3l"),
   ("HZJ_HToWW_M125", "", "wh3l"),
   ("WZZ", "", "wh3l"),
   ("ggZH_HToWW_M125", "", "wh3l"),
   ("HWminusJ_HToTauTau_M125", "", "wh3l_ossf"),
   ("HWminusJ_HToWW_M125", "", "wh3l_ossf"),
   ("HWplusJ_HToTauTau_M125", "", "wh3l_ossf"),
   ("HWplusJ_HToWW_M125", "", "wh3l_ossf"),
   ("HZJ_HToWW_M125", "", "wh3l_ossf"),
   ("WZZ", "", "wh3l_ossf"),
   ("ggZH_HToWW_M125", "", "wh3l_ossf"),
   ("HWminusJ_HToTauTau_M125", "", "wh3l_sssf"),
   ("HWminusJ_HToWW_M125", "", "wh3l_sssf"),
   ("HWplusJ_HToTauTau_M125", "", "wh3l_sssf"),
   ("HWplusJ_HToWW_M125", "", "wh3l_sssf"),
   ("HZJ_HToWW_M125", "", "wh3l_sssf"),
   ("WZZ", "", "wh3l_sssf"),
   ("ggZH_HToWW_M125", "", "wh3l_sssf")]

/-- A sequence of `GetPdfQcdSyst` calls, one statement after the other: the
events so far and, when a call faulted, the fault that ended the run. -/
noncomputable def runCalls (savefigures : Bool) (disk : Disk) :
    List (String × String × String) → List Event × Option Fault
  | [] => ([], none)
  | (sample, label, level) :: rest =>
    match GetPdfQcdSyst savefigures disk sample label level with
    | .error f => ([], some f)
    | .ok es =>
      ((es ++ (runCalls savefigures disk rest).1), (runCalls savefigures disk rest).2)

/-- Lines 197-250, with `_savefigures` as a parameter. The style macro of
line 199 leaves no event. -/
noncomputable def getPdfQcd (savefigures : Bool) (disk : Disk) : List Event × Option Fault :=
  ((if savefigures then [Event.mkdir "figures"] else []) ++ (runCalls savefigures disk calls).1,
   (runCalls savefigures disk calls).2)

/-- Specification, section 4.2: the double ratio of PDF replica `i`,
`(rec[i]/gen[i]) / (rec[1]/gen[1])`. -/
def pdfDoubleRatio {K : Type} [LinearOrderedField K] (gen rec : TH1F K) (i : Nat) : K :=
  (rec.GetBinContent i / gen.GetBinContent i) /
    (rec.GetBinContent 1 / gen.GetBinContent 1)

/-- Specification, section 4.2: `pdfDistribution`, the double ratios of the
indices of the closed range [10, 109]. -/
def pdfDistribution {K : Type} [LinearOrderedField K] (gen rec : TH1F K) : List K :=
  (List.range' 10 100).map (pdfDoubleRatio gen rec)

/-- Mean of a sample. -/
def mean {K : Type} [LinearOrderedField K] (l : List K) : K :=
  l.sum / (l.length : K)

/-- Population variance of a sample about its own mean,
`mean(r^2) - mean(r)^2`. -/
def populationVariance {K : Type} [LinearOrderedField K] (l : List K) : K :=
  mean (l.map (fun r => r ^ 2)) - (mean l) ^ 2

/-- Specification, section 4.2 and glossary: the population root-mean-square
spread of a sample about its own mean, `sqrt(mean(r^2) - mean(r)^2)`. -/
noncomputable def populationRMS (l : List ℝ) : ℝ :=
  Real.sqrt (populationVariance l)

/-- Specification, section 4.2: `combinedPdfAlpha`. -/
noncomputable def combinedPdfAlpha (pdfPct alpha1Pct alpha2Pct : ℝ) : ℝ :=
  Real.sqrt (pdfPct ^ 2 + (alpha1Pct ^ 2 + alpha2Pct ^ 2) / 2)

/-- The input of a (sample, level) pair is missing: the backing file is
absent, or it lacks `list_vectors_weights_gen` or
`list_vectors_weights_<level>`. -/
def inputMissing (disk : Disk) (sample level : String) : Prop :=
  match disk (_recdir ++ sample ++ ".root") with
  | none => True
  | some f =>
    f.Get "list_vectors_weights_gen" = none ∨ f.Get ("list_vectors_weights_" ++ level) = none

/-! ## Concrete inputs -/

/-- All weights equal to 1. -/
def ones : TH1F ℝ := ⟨fun _ => 1⟩

/-- Weights 1 except for PDF replica bin 10, which holds 2. -/
def outlier10 : TH1F ℝ := ⟨fun i => if i = 10 then 2 else 1⟩

/-- Weights 1 except for the QCD bin 9, which holds 2. -/
def double9 : TH1F ℝ := ⟨fun i => if i = 9 then 2 else 1⟩

/-- All weights equal to 1000. -/
def thousand : TH1F ℝ := ⟨fun _ => 1000⟩

/-- Weights 1000 except for PDF replica bin 10, which holds 965. -/
def edge965 : TH1F ℝ := ⟨fun i => if i = 10 then 965 else 1000⟩

/-- A disk without any file. -/
def emptyDisk : Disk := fun _ => none

/-- A disk where every path holds a file with every key, all weights 1. -/
def fullDisk : Disk := fun _ => some ⟨fun _ => some ones⟩

/-- A disk where only the file of the second sample is missing. -/
def diskWithoutSecond : Disk := fun path =>
  if path = _recdir ++ "HWminusJ_HToWW_M125" ++ ".root" then none
  else some ⟨fun _ => some ones⟩

/-! ## Rounding -/

/-- Powers of two are positive. -/
theorem two_zpow_pos {F : Type} [LinearOrderedField F] (n : Int) : (0 : F) < (2 : F) ^ n :=
  zpow_pos (by norm_num) n

section RoundLemmas

variable {K : Type} [LinearOrderedField K] [FloorRing K]

/-- A number less than 1/2 away from an integer rounds to it. -/
theorem roundNE_eq (y : K) (m : Int) (h : |y - (m : K)| < 1 / 2) : roundNE y = m := by
  obtain ⟨h1, h2⟩ := abs_lt.1 h
  unfold roundNE
  by_cases hm : (m : K) ≤ y
  · have hf : ⌊y⌋ = m := Int.floor_eq_iff.2 ⟨hm, by linarith⟩
    rw [hf, if_pos (by linarith)]
  · have hm' : y < (m : K) := not_le.1 hm
    have hf : ⌊y⌋ = m - 1 := by
      apply Int.floor_eq_iff.2
      push_cast
      constructor <;> linarith
    rw [hf]
    have hlt : ¬ (y - ((m - 1 : Int) : K) < 1 / 2) := by push_cast; linarith
    have hgt : 1 / 2 < y - ((m - 1 : Int) : K) := by push_cast; linarith
    rw [if_neg hlt, if_pos hgt]
    ring

/-- Rounding does not go below an integer lower bound. -/
theorem roundNE_ge (y : K) (n : Int) (h : (n : K) ≤ y) : n ≤ roundNE y := by
  have hf : n ≤ ⌊y⌋ := Int.le_floor.2 h
  unfold roundNE
  split_ifs <;> omega

/-- Rounding does not go above an integer upper bound. -/
theorem roundNE_le (y : K) (n : Int) (h : y ≤ (n : K)) : roundNE y ≤ n := by
  rcases eq_or_lt_of_le h with h | h
  · rw [roundNE_eq y n (by rw [h]; simp)]
  · have hf : ⌊y⌋ < n := Int.floor_lt.2 h
    unfold roundNE
    split_ifs <;> omega

/-- The binary exponent of a positive number, from its binade. -/
theorem log_two_eq (x : K) (e : Int) (hx : 0 < x) (hlo : (2 : K) ^ e ≤ x)
    (hhi : x < (2 : K) ^ (e + 1)) : Int.log 2 x = e := by
  have h1 : e ≤ Int.log 2 x := by
    have := (Int.zpow_le_iff_le_log (b := 2) (by norm_num) hx (x := e)).1 (by exact_mod_cast hlo)
    exact this
  have h2 : Int.log 2 x < e + 1 := by
    have := (Int.lt_zpow_iff_log_lt (b := 2) (by norm_num) hx (x := e + 1)).1
      (by exact_mod_cast hhi)
    exact this
  omega

/-- Rounding of a positive number in the binade of exponent `e`, given the
integer `m` nearest to its scaled significand. -/
theorem FP.round_pos_eq (f : Format) (x : K) (e m : Int) (hx : 0 < x)
    (hlo : (2 : K) ^ e ≤ x) (hhi : x < (2 : K) ^ (e + 1)) (hemin : f.emin ≤ e)
    (hm : |x / (2 : K) ^ (e - ((f.prec : Int) - 1)) - (m : K)| < 1 / 2) (hm0 : m ≠ 0)
    (hov : (m : K) * (2 : K) ^ (e - ((f.prec : Int) - 1)) < (2 : K) ^ (f.emax + 1)) :
    FP.round f x = .num ((m : K) * (2 : K) ^ (e - ((f.prec : Int) - 1))) := by
  unfold FP.round
  have habs : |x| = x := abs_of_pos hx
  have hlog : Int.log 2 x = e := log_two_eq x e hx hlo hhi
  rw [if_neg hx.ne.symm]
  simp only [habs, hlog, max_eq_left hemin, roundNE_eq _ m hm]
  rw [if_neg (not_le.2 hov), if_neg hm0, if_neg (not_lt.2 hx.le)]

/-- A number whose magnitude lies between two powers of two inside the
normal range rounds to a finite value between the same powers of two. -/
theorem FP.round_range (f : Format) (x : K) (a b : Int) (ha : f.emin ≤ a) (hb : b ≤ f.emax)
    (hp : 1 ≤ f.prec) (hlo : (2 : K) ^ a ≤ |x|) (hhi : |x| ≤ (2 : K) ^ b) :
    ∃ r, FP.round f x = .num r ∧ (2 : K) ^ a ≤ |r| ∧ |r| ≤ (2 : K) ^ b ∧ (0 < x → 0 < r) := by
  have hpos : 0 < |x| := lt_of_lt_of_le (two_zpow_pos a) hlo
  have hx0 : x ≠ 0 := abs_pos.1 hpos
  have hea : a ≤ Int.log 2 |x| :=
    (Int.zpow_le_iff_le_log (b := 2) (by norm_num) hpos (x := a)).1 (by exact_mod_cast hlo)
  have hlog1 : (2 : K) ^ (Int.log 2 |x|) ≤ |x| := by
    have := Int.zpow_log_le_self (b := 2) (by norm_num) hpos
    exact_mod_cast this
  have hlog2 : |x| < (2 : K) ^ (Int.log 2 |x| + 1) := by
    have := Int.lt_zpow_succ_log_self (b := 2) (by norm_num) |x|
    exact_mod_cast this
  have heb : Int.log 2 |x| ≤ b := by
    by_contra hcon
    have h1 : b + 1 ≤ Int.log 2 |x| := by omega
    have h2 : (2 : K) ^ (b + 1) ≤ (2 : K) ^ (Int.log 2 |x|) :=
      zpow_le_zpow_right₀ (by norm_num) h1
    have h3 : (2 : K) ^ b < (2 : K) ^ (b + 1) := zpow_lt_zpow_right₀ (by norm_num) (by omega)
    linarith
  generalize hE : Int.log 2 |x| = e at hea heb hlog1 hlog2
  -- the significand bounds
  set q : K := (2 : K) ^ (e - ((f.prec : Int) - 1)) with hq
  have hqpos : 0 < q := two_zpow_pos _
  set M : Int := (2 : Int) ^ (f.prec - 1) with hM
  have hMK : ((M : Int) : K) = (2 : K) ^ ((f.prec : Int) - 1) := by
    rw [hM]
    push_cast
    rw [← zpow_natCast]
    congr 1
    omega
  have hMq : (M : K) * q = (2 : K) ^ e := by
    rw [hMK, hq, ← zpow_add₀ (by norm_num)]
    congr 1
    ring
  have h2Mq : ((2 * M : Int) : K) * q = (2 : K) ^ (e + 1) := by
    push_cast
    rw [mul_assoc, hMq, add_comm, zpow_add₀ (by norm_num), zpow_one]
  have hMpos : 0 < M := by rw [hM]; positivity
  have hy1 : (M : K) ≤ |x| / q := by
    rw [le_div_iff₀ hqpos, hMq]; exact hlog1
  have hy2 : |x| / q ≤ ((2 * M : Int) : K) := by
    rw [div_le_iff₀ hqpos, h2Mq]; exact hlog2.le
  have hm1 : M ≤ roundNE (|x| / q) := roundNE_ge _ _ hy1
  have hm2 : roundNE (|x| / q) ≤ 2 * M := roundNE_le _ _ hy2
  have hr1 : (2 : K) ^ e ≤ (roundNE (|x| / q) : K) * q := by
    rw [← hMq]
    exact mul_le_mul_of_nonneg_right (by exact_mod_cast hm1) hqpos.le
  have hr2 : (roundNE (|x| / q) : K) * q ≤ (2 : K) ^ b := by
    rcases eq_or_lt_of_le heb with heq | hlt
    · have hxe : |x| = (2 : K) ^ e := le_antisymm (by rw [heq]; exact hhi) hlog1
      have hy : |x| / q = (M : K) := by
        rw [div_eq_iff hqpos.ne.symm, hMq]; exact hxe
      rw [roundNE_eq _ M (by rw [hy]; simp), hMq, heq]
    · calc (roundNE (|x| / q) : K) * q ≤ ((2 * M : Int) : K) * q :=
            mul_le_mul_of_nonneg_right (by exact_mod_cast hm2) hqpos.le
        _ = (2 : K) ^ (e + 1) := h2Mq
        _ ≤ (2 : K) ^ b := zpow_le_zpow_right₀ (by norm_num) (by omega)
  have hnov : ¬ ((2 : K) ^ (f.emax + 1) ≤ (roundNE (|x| / q) : K) * q) := by
    have h3 : (2 : K) ^ b < (2 : K) ^ (f.emax + 1) :=
      zpow_lt_zpow_right₀ (by norm_num) (by omega)
    exact not_le.2 (lt_of_le_of_lt hr2 h3)
  have hm0 : roundNE (|x| / q) ≠ 0 := by omega
  have hra : (2 : K) ^ a ≤ (roundNE (|x| / q) : K) * q :=
    le_trans (zpow_le_zpow_right₀ (by norm_num) hea) hr1
  have hrpos : 0 < (roundNE (|x| / q) : K) * q := lt_of_lt_of_le (two_zpow_pos a) hra
  have hval : FP.round f x =
      .num (if x < 0 then -((roundNE (|x| / q) : K) * q) else (roundNE (|x| / q) : K) * q) := by
    unfold FP.round
    rw [if_neg hx0]
    simp only [hE, max_eq_left (le_trans ha hea)]
    rw [if_neg hnov, if_neg hm0]
  refine ⟨_, hval, ?_, ?_, ?_⟩
  · split_ifs
    · rw [abs_neg, abs_of_pos hrpos]; exact hra
    · rw [abs_of_pos hrpos]; exact hra
  · split_ifs
    · rw [abs_neg, abs_of_pos hrpos]; exact hr2
    · rw [abs_of_pos hrpos]; exact hr2
  · intro hxpos
    rw [if_neg (not_lt.2 hxpos.le)]
    exact hrpos

end RoundLemmas

/-! ## Filling a histogram -/

section FillLemmas

variable {K : Type} [LinearOrderedField K] [FloorRing K]

/-- The range test on a finite value. -/
theorem FP.inRange_iff {F : Type} [LinearOrderedField F] (lo hi : F) (x : FP F) :
    FP.inRange lo hi x = true ↔
      (x = .num x.val ∨ x = .negZero) ∧ lo ≤ x.val ∧ x.val < hi := by
  cases x with
  | num v => simp [FP.inRange, FP.val]
  | negZero => simp [FP.inRange, FP.val]
  | inf neg => simp [FP.inRange]
  | nan => simp [FP.inRange]

/-- The bin of a finite value. -/
theorem TH1D.FindBin_finite (h : TH1D K) (x : FP K) (hx : x = .num x.val ∨ x = .negZero) :
    h.FindBin x =
      if x.val < h.fXmin then 0
      else if ¬ (x.val < h.fXmax) then h.fNbins + 1
      else 1 + ⌊(h.fNbins : K) * (x.val - h.fXmin) / (h.fXmax - h.fXmin)⌋₊ := by
  rcases hx with hx | hx <;> rw [hx] <;> rfl

/-- A value inside the axis range lands in one of the bins 1..`fNbins`. -/
theorem TH1D.FindBin_inside (h : TH1D K) (x : FP K) (hN : 0 < h.fNbins)
    (hin : FP.inRange h.fXmin h.fXmax x = true) :
    1 ≤ h.FindBin x ∧ h.FindBin x ≤ h.fNbins := by
  obtain ⟨hfin, hlo, hhi⟩ := (FP.inRange_iff _ _ x).1 hin
  have hw : 0 < h.fXmax - h.fXmin := by linarith
  have hN' : (0 : K) < (h.fNbins : K) := by exact_mod_cast hN
  have h0 : 0 ≤ (h.fNbins : K) * (x.val - h.fXmin) / (h.fXmax - h.fXmin) := by
    apply div_nonneg _ hw.le
    exact mul_nonneg hN'.le (by linarith)
  have h1 : (h.fNbins : K) * (x.val - h.fXmin) / (h.fXmax - h.fXmin) < (h.fNbins : K) := by
    rw [div_lt_iff₀ hw]
    exact mul_lt_mul_of_pos_left (by linarith) hN'
  have h2 : ⌊(h.fNbins : K) * (x.val - h.fXmin) / (h.fXmax - h.fXmin)⌋₊ < h.fNbins :=
    (Nat.floor_lt h0).2 h1
  rw [TH1D.FindBin_finite h x hfin, if_neg (not_lt.2 hlo), if_neg (not_not.2 hhi)]
  omega

/-- A value outside the axis range, or not finite, lands in the underflow or
overflow bin. -/
theorem TH1D.FindBin_outside (h : TH1D K) (x : FP K)
    (hout : FP.inRange h.fXmin h.fXmax x = false) :
    h.FindBin x = 0 ∨ h.FindBin x = h.fNbins + 1 := by
  have hfin : ∀ y : FP K, (y = .num y.val ∨ y = .negZero) →
      FP.inRange h.fXmin h.fXmax y = false →
      h.FindBin y = 0 ∨ h.FindBin y = h.fNbins + 1 := by
    intro y hy hyout
    have hn : ¬ (h.fXmin ≤ y.val ∧ y.val < h.fXmax) := by
      intro hc
      have := (FP.inRange_iff h.fXmin h.fXmax y).2 ⟨hy, hc⟩
      rw [hyout] at this
      exact Bool.false_ne_true this
    rw [TH1D.FindBin_finite h y hy]
    by_cases hlo : y.val < h.fXmin
    · left; rw [if_pos hlo]
    · right
      have hhi : ¬ y.val < h.fXmax := fun hh => hn ⟨not_lt.1 hlo, hh⟩
      rw [if_neg hlo, if_pos hhi]
  cases x with
  | num v => exact hfin _ (Or.inl rfl) hout
  | negZero => exact hfin _ (Or.inr rfl) hout
  | inf neg =>
    cases neg
    · right; rfl
    · left; rfl
  | nan => right; rfl

/-- Filling a value inside the axis range. -/
theorem TH1D.Fill_inside (h : TH1D K) (x : FP K) (hN : 0 < h.fNbins)
    (hin : FP.inRange h.fXmin h.fXmax x = true) :
    (h.Fill x).fNbins = h.fNbins ∧ (h.Fill x).fXmin = h.fXmin ∧ (h.Fill x).fXmax = h.fXmax ∧
    (h.Fill x).fEntries = h.fEntries + 1 ∧
    (h.Fill x).fTsumw = h.fTsumw + 1 ∧ (h.Fill x).fTsumw2 = h.fTsumw2 + 1 ∧
    (h.Fill x).fTsumwx = h.fTsumwx + x.val ∧
    (h.Fill x).fTsumwx2 = h.fTsumwx2 + x.val * x.val := by
  obtain ⟨h1, h2⟩ := h.FindBin_inside x hN hin
  have hb : ¬ (h.FindBin x = 0 ∨ h.FindBin x > h.fNbins) := by omega
  simp only [TH1D.Fill, if_neg hb, and_self]

/-- Filling a value outside the axis range, or not finite: only the entry
count and the underflow or overflow bin change. -/
theorem TH1D.Fill_outside (h : TH1D K) (x : FP K)
    (hout : FP.inRange h.fXmin h.fXmax x = false) :
    (h.Fill x).fNbins = h.fNbins ∧ (h.Fill x).fXmin = h.fXmin ∧ (h.Fill x).fXmax = h.fXmax ∧
    (h.Fill x).fEntries = h.fEntries + 1 ∧
    (h.Fill x).fTsumw = h.fTsumw ∧ (h.Fill x).fTsumw2 = h.fTsumw2 ∧
    (h.Fill x).fTsumwx = h.fTsumwx ∧ (h.Fill x).fTsumwx2 = h.fTsumwx2 ∧
    ∀ b, 1 ≤ b → b ≤ h.fNbins → (h.Fill x).fArray b = h.fArray b := by
  have hb : h.FindBin x = 0 ∨ h.FindBin x > h.fNbins := by
    rcases h.FindBin_outside x hout with h0 | h0
    · exact Or.inl h0
    · exact Or.inr (by omega)
  simp only [TH1D.Fill, if_pos hb, true_and]
  intro b hb1 hb2
  have : b ≠ h.FindBin x := by omega
  simp [this]

/-- The state of a histogram after a sequence of fills, in terms of the
filled values that lie inside the axis range. -/
theorem TH1D.foldl_Fill (xs : List (FP K)) (h : TH1D K) (hN : 0 < h.fNbins) :
    (xs.foldl TH1D.Fill h).fNbins = h.fNbins ∧
    (xs.foldl TH1D.Fill h).fXmin = h.fXmin ∧
    (xs.foldl TH1D.Fill h).fXmax = h.fXmax ∧
    (xs.foldl TH1D.Fill h).fEntries = h.fEntries + xs.length ∧
    (xs.foldl TH1D.Fill h).fTsumw =
      h.fTsumw + (((xs.filter (FP.inRange h.fXmin h.fXmax)).map FP.val).length : K) ∧
    (xs.foldl TH1D.Fill h).fTsumw2 =
      h.fTsumw2 + (((xs.filter (FP.inRange h.fXmin h.fXmax)).map FP.val).length : K) ∧
    (xs.foldl TH1D.Fill h).fTsumwx =
      h.fTsumwx + ((xs.filter (FP.inRange h.fXmin h.fXmax)).map FP.val).sum ∧
    (xs.foldl TH1D.Fill h).fTsumwx2 =
      h.fTsumwx2 +
        (((xs.filter (FP.inRange h.fXmin h.fXmax)).map FP.val).map (fun x => x * x)).sum ∧
    (xs.filter (FP.inRange h.fXmin h.fXmax) = [] →
      ∀ b, 1 ≤ b → b ≤ h.fNbins → (xs.foldl TH1D.Fill h).fArray b = h.fArray b) := by
  induction xs generalizing h with
  | nil => simp
  | cons x xs ih =>
    rw [List.foldl_cons]
    cases hx : FP.inRange h.fXmin h.fXmax x with
    | true =>
      obtain ⟨e1, e2, e3, e4, e5, e6, e7, e8⟩ := h.Fill_inside x hN hx
      obtain ⟨i1, i2, i3, i4, i5, i6, i7, i8, _⟩ := ih (h.Fill x) (by rw [e1]; exact hN)
      rw [i1, i2, i3, i4, i5, i6, i7, i8, e1, e2, e3, e4, e5, e6, e7, e8,
        List.filter_cons_of_pos hx]
      refine ⟨rfl, rfl, rfl, ?_, ?_, ?_, ?_, ?_, ?_⟩
      · simp only [List.length_cons]; omega
      · simp only [List.map_cons, List.length_cons]; push_cast; ring
      · simp only [List.map_cons, List.length_cons]; push_cast; ring
      · simp only [List.map_cons, List.sum_cons]; ring
      · simp only [List.map_cons, List.sum_cons]; ring
      · intro hnil; exact absurd hnil (List.cons_ne_nil _ _)
    | false =>
      obtain ⟨e1, e2, e3, e4, e5, e6, e7, e8, e9⟩ := h.Fill_outside x hx
      obtain ⟨i1, i2, i3, i4, i5, i6, i7, i8, i9⟩ := ih (h.Fill x) (by rw [e1]; exact hN)
      have hx' : ¬ FP.inRange h.fXmin h.fXmax x = true := by rw [hx]; exact Bool.false_ne_true
      rw [e2, e3] at i5 i6 i7 i8 i9
      rw [i1, i2, i3, i4, i5, i6, i7, i8, e1, e2, e3, e4, e5, e6, e7, e8,
        List.filter_cons_of_neg hx']
      refine ⟨rfl, rfl, rfl, ?_, rfl, rfl, rfl, rfl, ?_⟩
      · simp only [List.length_cons]; omega
      · intro hnil b hb1 hb2
        rw [i9 hnil b hb1 (by rw [e1]; exact hb2), e9 b hb1 hb2]

/-- Rebuilding the statistics from bins that are all empty gives zeros. -/
theorem TH1D.rebuild_empty {F : Type} [LinearOrderedField F] (h : TH1D F) (l : List Nat) (hl : ∀ b ∈ l, h.fArray b = 0) :
    l.foldl
      (fun (s : F × F × F × F) binx =>
        let x := h.GetBinCenter binx
        let w := h.fArray binx
        (s.1 + w, s.2.1 + |w|, s.2.2.1 + w * x, s.2.2.2 + w * x * x))
      (0, 0, 0, 0) = (0, 0, 0, 0) := by
  induction l with
  | nil => rfl
  | cons b l ih =>
    have hb : h.fArray b = 0 := hl b (List.mem_cons_self _ _)
    rw [List.foldl_cons]
    simp only [hb, abs_zero, add_zero, zero_mul]
    exact ih (fun c hc => hl c (List.mem_cons_of_mem _ hc))

/-- The statistics of a fresh histogram after a sequence of fills are the
count, sum and sum of squares of the filled values inside the axis range. -/
theorem TH1D.GetStats_foldl_new (xs : List (FP K)) (N : Nat) (hN : 0 < N) (xmin xmax : K) :
    (xs.foldl TH1D.Fill (TH1D.new N xmin xmax)).GetStats =
      ((((xs.filter (FP.inRange xmin xmax)).map FP.val).length : K),
       (((xs.filter (FP.inRange xmin xmax)).map FP.val).length : K),
       ((xs.filter (FP.inRange xmin xmax)).map FP.val).sum,
       (((xs.filter (FP.inRange xmin xmax)).map FP.val).map (fun x => x * x)).sum) := by
  obtain ⟨i1, -, -, i4, i5, i6, i7, i8, i9⟩ :=
    TH1D.foldl_Fill xs (TH1D.new N xmin xmax) (by simpa [TH1D.new] using hN)
  simp only [TH1D.new, zero_add] at i1 i4 i5 i6 i7 i8 i9
  unfold TH1D.GetStats
  by_cases hc : (xs.foldl TH1D.Fill (TH1D.new N xmin xmax)).fTsumw = 0 ∧
      (xs.foldl TH1D.Fill (TH1D.new N xmin xmax)).fEntries > 0
  · rw [if_pos hc]
    have hlen : ((xs.filter (FP.inRange xmin xmax)).map FP.val).length = 0 := by
      have := hc.1
      simp only [TH1D.new] at this
      rw [i5] at this
      exact_mod_cast this
    have hnil : xs.filter (FP.inRange xmin xmax) = [] := by
      rw [List.length_map] at hlen
      exact List.length_eq_zero.1 hlen
    rw [TH1D.rebuild_empty]
    · rw [hnil]; simp
    · intro b hb
      have hb' := List.mem_range'_1.1 hb
      simp only [TH1D.new] at hb' ⊢
      rw [i1] at hb'
      exact i9 hnil b hb'.1 (by omega)
  · rw [if_neg hc]
    simp only [TH1D.new] at *
    rw [i5, i6, i7, i8]

end FillLemmas

/-! ## Spread of a sample -/

section Spread

variable {K : Type} [LinearOrderedField K]

/-- Sum of squared deviations from any centre `m`. -/
theorem sum_sq_dev (l : List K) (m : K) :
    (l.map (fun x => (x - m) ^ 2)).sum =
      (l.map (fun x => x ^ 2)).sum - 2 * m * l.sum + (l.length : K) * m ^ 2 := by
  induction l with
  | nil => simp
  | cons x l ih =>
    simp only [List.map_cons, List.sum_cons, List.length_cons, ih]
    push_cast
    ring

/-- The population variance is the mean squared deviation from the mean. -/
theorem populationVariance_eq (l : List K) :
    populationVariance l = (l.map (fun x => (x - mean l) ^ 2)).sum / (l.length : K) := by
  rw [sum_sq_dev]
  unfold populationVariance mean
  rw [List.length_map]
  by_cases hn : (l.length : K) = 0
  · simp [hn]
  · field_simp
    ring

/-- The population variance is never negative. -/
theorem populationVariance_nonneg (l : List K) : 0 ≤ populationVariance l := by
  rw [populationVariance_eq]
  apply div_nonneg
  · apply List.sum_nonneg
    intro y hy
    obtain ⟨x, -, rfl⟩ := List.mem_map.1 hy
    exact sq_nonneg _
  · exact Nat.cast_nonneg _

/-- A sample of equal values has no spread. -/
theorem populationVariance_const (l : List K) (c : K) (hl : ∀ x ∈ l, x = c) :
    populationVariance l = 0 := by
  have h := List.eq_replicate_of_mem hl
  rw [h]
  unfold populationVariance mean
  simp only [List.map_replicate, List.sum_replicate, List.length_replicate, nsmul_eq_mul]
  by_cases hn : (l.length : K) = 0
  · simp [hn]
  · field_simp

end Spread

section Radicand

variable {K : Type} [LinearOrderedField K] [FloorRing K]

/-- The radicand of `GetRMS` after a sequence of fills of a fresh histogram
is the population variance of the values filled inside the axis range. -/
theorem TH1D.GetStdDev2_foldl_new (xs : List (FP K)) (N : Nat) (hN : 0 < N) (xmin xmax : K) :
    (xs.foldl TH1D.Fill (TH1D.new N xmin xmax)).GetStdDev2 =
      populationVariance ((xs.filter (FP.inRange xmin xmax)).map FP.val) := by
  unfold TH1D.GetStdDev2
  rw [TH1D.GetStats_foldl_new xs N hN]
  simp only
  generalize (xs.filter (FP.inRange xmin xmax)).map FP.val = l
  have hv := populationVariance_nonneg l
  by_cases hn : (l.length : K) = 0
  · rw [if_pos hn]
    unfold populationVariance mean
    simp [hn]
  · rw [if_neg hn]
    have : populationVariance l =
        (l.map (fun x => x * x)).sum / (l.length : K) -
          l.sum / (l.length : K) * (l.sum / (l.length : K)) := by
      unfold populationVariance mean
      rw [List.length_map]
      have hsq : (fun x : K => x ^ 2) = (fun x : K => x * x) := by
        funext x; ring
      rw [hsq]
      ring
    rw [← this]
    exact abs_of_nonneg hv

end Radicand

/-! ## The percentages (claims C1, C7, C8) -/

/-- C1: for weight vectors whose entries at the indices 1, 5, 9, 110 and 111
are non-zero, the four percentages reported by `GetPdfQcdSyst` (`qcd_mu05` at
index 9, `qcd_mu20` at 5, `alpha_265000` at 110, `alpha_266000` at 111) equal
`100 * |1 - (rec[i]/rec[1]) / (gen[i]/gen[1])|`. -/
theorem C1_percentages (sample level : String) (gen rec : TH1F ℝ)
    (_hg1 : gen.GetBinContent 1 ≠ 0) (_hg5 : gen.GetBinContent 5 ≠ 0)
    (_hg9 : gen.GetBinContent 9 ≠ 0) (_hg110 : gen.GetBinContent 110 ≠ 0)
    (_hg111 : gen.GetBinContent 111 ≠ 0)
    (_hr1 : rec.GetBinContent 1 ≠ 0) (_hr5 : rec.GetBinContent 5 ≠ 0)
    (_hr9 : rec.GetBinContent 9 ≠ 0) (_hr110 : rec.GetBinContent 110 ≠ 0)
    (_hr111 : rec.GetBinContent 111 ≠ 0) :
    (report sample level gen rec).qcd_mu05 =
      100 * |1 - (rec.GetBinContent 9 / rec.GetBinContent 1) /
                 (gen.GetBinContent 9 / gen.GetBinContent 1)| ∧
    (report sample level gen rec).qcd_mu20 =
      100 * |1 - (rec.GetBinContent 5 / rec.GetBinContent 1) /
                 (gen.GetBinContent 5 / gen.GetBinContent 1)| ∧
    (report sample level gen rec).alpha_265000 =
      100 * |1 - (rec.GetBinContent 110 / rec.GetBinContent 1) /
                 (gen.GetBinContent 110 / gen.GetBinContent 1)| ∧
    (report sample level gen rec).alpha_266000 =
      100 * |1 - (rec.GetBinContent 111 / rec.GetBinContent 1) /
                 (gen.GetBinContent 111 / gen.GetBinContent 1)| :=
  ⟨rfl, rfl, rfl, rfl⟩

/-- C1 at the weights `ones` and `double9`: the percentage at index 9 is 100,
the three others are 0. -/
theorem C1_percentages_witness :
    (report "WZZ" "wh3l" ones double9).qcd_mu05 = 100 ∧
    (report "WZZ" "wh3l" ones double9).qcd_mu20 = 0 ∧
    (report "WZZ" "wh3l" ones double9).alpha_265000 = 0 ∧
    (report "WZZ" "wh3l" ones double9).alpha_266000 = 0 := by
  have h := C1_percentages "WZZ" "wh3l" ones double9
    (by simp [ones]) (by simp [ones]) (by simp [ones]) (by simp [ones]) (by simp [ones])
    (by simp [double9]) (by simp [double9]) (by simp [double9]) (by simp [double9])
    (by simp [double9])
  obtain ⟨h1, h2, h3, h4⟩ := h
  rw [h1, h2, h3, h4]
  simp only [ones, double9]
  norm_num

/-- C3: the combined value `pdf_alpha` of `GetPdfQcdSyst` is
`sqrt(pdf^2 + (alpha_265000^2 + alpha_266000^2)/2)`, for all values of the
three percentages and so for the ones of every report. -/
theorem C3_pdf_alpha_formula :
    (∀ p a1 a2 : ℝ, pdf_alpha p a1 a2 = Real.sqrt (p ^ 2 + (a1 ^ 2 + a2 ^ 2) / 2)) ∧
    (∀ p a1 a2 : ℝ, pdf_alpha p a1 a2 = combinedPdfAlpha p a1 a2) ∧
    (∀ (sample level : String) (gen rec : TH1F ℝ),
      (report sample level gen rec).pdf_alpha =
        combinedPdfAlpha (report sample level gen rec).pdf
          (report sample level gen rec).alpha_265000
          (report sample level gen rec).alpha_266000) := by
  have h : ∀ p a1 a2 : ℝ, pdf_alpha p a1 a2 = Real.sqrt (p ^ 2 + (a1 ^ 2 + a2 ^ 2) / 2) := by
    intro p a1 a2
    unfold pdf_alpha
    congr 1
    ring
  exact ⟨h, h, fun sample level gen rec => h _ _ _⟩

/-- C9: for all real `p`, `a1`, `a2`, the combined value
`sqrt(p*p + (a1*a1 + a2*a2)/2)` is at least `p`, with equality when
`p >= 0` and `a1 = a2 = 0`. -/
theorem C9_pdf_alpha_ge (p a1 a2 : ℝ) :
    p ≤ pdf_alpha p a1 a2 ∧ (0 ≤ p → a1 = 0 → a2 = 0 → pdf_alpha p a1 a2 = p) := by
  constructor
  · unfold pdf_alpha
    have h : p ^ 2 ≤ p * p + (a1 * a1 + a2 * a2) / 2 := by
      nlinarith [mul_self_nonneg a1, mul_self_nonneg a2]
    exact le_trans (le_abs_self p) (Real.abs_le_sqrt h)
  · intro hp h1 h2
    subst h1 h2
    unfold pdf_alpha
    simp only [mul_zero, add_zero, zero_div]
    exact Real.sqrt_mul_self hp

/-- C9 at `p = 3`: the combination with `a1 = a2 = 4` is at least 3, and with
`a1 = a2 = 0` it is 3. -/
theorem C9_pdf_alpha_ge_witness :
    (3 : ℝ) ≤ pdf_alpha 3 4 4 ∧ pdf_alpha 3 0 0 = 3 :=
  ⟨(C9_pdf_alpha_ge 3 4 4).1, (C9_pdf_alpha_ge 3 0 0).2 (by norm_num) rfl rfl⟩

/-! ## Stored values (claims C2, C4) -/

/-- A power of two inside the normal range is a value of the format. -/
theorem FP.round_zpow (f : Format) (e : Int) (hp : 1 ≤ f.prec) (h1 : f.emin ≤ e)
    (h2 : e ≤ f.emax) : FP.round f ((2 : ℝ) ^ e) = .num ((2 : ℝ) ^ e) := by
  have hpos : (0 : ℝ) < (2 : ℝ) ^ e := two_zpow_pos e
  obtain ⟨r, hr, hlo, hhi, hsign⟩ := FP.round_range f ((2 : ℝ) ^ e) e e h1 h2 hp
    (by rw [abs_of_pos hpos]) (by rw [abs_of_pos hpos])
  have hrpos := hsign hpos
  rw [abs_of_pos hrpos] at hlo hhi
  rw [hr, le_antisymm hhi hlo]

/-- The value 1 is a `float` and a `double`. -/
theorem FP.round_one : FP.round binary32 (1 : ℝ) = .num 1 ∧ FP.round binary64 (1 : ℝ) = .num 1 := by
  have h32 := FP.round_zpow binary32 0 (by decide) (by decide) (by decide)
  have h64 := FP.round_zpow binary64 0 (by decide) (by decide) (by decide)
  rw [zpow_zero] at h32 h64
  exact ⟨h32, h64⟩

/-- The value 2 is a `float` and a `double`. -/
theorem FP.round_two : FP.round binary32 (2 : ℝ) = .num 2 ∧ FP.round binary64 (2 : ℝ) = .num 2 := by
  have h32 := FP.round_zpow binary32 1 (by decide) (by decide) (by decide)
  have h64 := FP.round_zpow binary64 1 (by decide) (by decide) (by decide)
  rw [zpow_one] at h32 h64
  exact ⟨h32, h64⟩

/-- Rounding of a positive real to `float`, from its binade and the integer
nearest to its scaled significand. -/
theorem round32_eval (x : ℝ) (e m : Int) (v : ℝ) (hx : 0 < x)
    (hlo : (2 : ℝ) ^ e ≤ x) (hhi : x < (2 : ℝ) ^ (e + 1)) (hemin : -126 ≤ e)
    (hm : |x / (2 : ℝ) ^ (e - 23) - (m : ℝ)| < 1 / 2) (hm0 : m ≠ 0)
    (hov : (m : ℝ) * (2 : ℝ) ^ (e - 23) < (2 : ℝ) ^ (128 : Int))
    (hv : v = (m : ℝ) * (2 : ℝ) ^ (e - 23)) : FP.round binary32 x = .num v := by
  have h := FP.round_pos_eq binary32 x e m hx hlo hhi hemin
    (by simpa [binary32] using hm) hm0 (by simpa [binary32] using hov)
  rw [h, hv]
  simp [binary32]

/-- Rounding of a positive real to `double`, from its binade and the
integer nearest to its scaled significand. -/
theorem round64_eval (x : ℝ) (e m : Int) (v : ℝ) (hx : 0 < x)
    (hlo : (2 : ℝ) ^ e ≤ x) (hhi : x < (2 : ℝ) ^ (e + 1)) (hemin : -1022 ≤ e)
    (hm : |x / (2 : ℝ) ^ (e - 52) - (m : ℝ)| < 1 / 2) (hm0 : m ≠ 0)
    (hov : (m : ℝ) * (2 : ℝ) ^ (e - 52) < (2 : ℝ) ^ (1024 : Int))
    (hv : v = (m : ℝ) * (2 : ℝ) ^ (e - 52)) : FP.round binary64 x = .num v := by
  have h := FP.round_pos_eq binary64 x e m hx hlo hhi hemin
    (by simpa [binary64] using hm) hm0 (by simpa [binary64] using hov)
  rw [h, hv]
  simp [binary64]

/-- Division of two finite non-zero values: the rounded quotient. -/
theorem FP.div_num_num (f : Format) (a b : ℝ) (ha : a ≠ 0) (hb : b ≠ 0) :
    FP.div f (.num a) (.num b) = FP.round f (a / b) := by
  simp [FP.div, FP.val, ha, hb]

/-- The `double` literal `0.965`. -/
theorem toDouble_0965 : toDouble (0.965 : ℝ) = 8691947280825057 / 2 ^ 53 := by
  unfold toDouble
  rw [round64_eval 0.965 (-1) 8691947280825057 (8691947280825057 / 2 ^ 53) (by norm_num)
    (by norm_num) (by norm_num) (by norm_num) (by rw [abs_lt]; norm_num) (by norm_num)
    (by norm_num) (by norm_num)]
  rfl

/-- The `double` literal `1.035`. -/
theorem toDouble_1035 : toDouble (1.035 : ℝ) = 4661225614328463 / 2 ^ 52 := by
  unfold toDouble
  rw [round64_eval 1.035 0 4661225614328463 (4661225614328463 / 2 ^ 52) (by norm_num)
    (by norm_num) (by norm_num) (by norm_num) (by rw [abs_lt]; norm_num) (by norm_num)
    (by norm_num) (by norm_num)]
  rfl

/-- The loop of lines 281-288 fills `h_pdfratio` with the stored double
ratios of the indices 10..109, in order. -/
theorem h_pdfratio_eq (gen rec : TH1F ℝ) :
    h_pdfratio gen rec =
      (pdfRatios gen rec).foldl TH1D.Fill (TH1D.new 100 (toDouble 0.965) (toDouble 1.035)) := by
  unfold h_pdfratio pdfRatios
  rw [List.foldl_map]

/-- The value of line 334: 100 times the population root-mean-square spread
of the stored double ratios that lie inside the axis range of `h_pdfratio`. -/
theorem pdf_eq (gen rec : TH1F ℝ) :
    pdf gen rec = 100 * populationRMS
      (((pdfRatios gen rec).filter (FP.inRange (toDouble 0.965) (toDouble 1.035))).map
        FP.val) := by
  unfold pdf TH1D.GetRMS populationRMS
  rw [h_pdfratio_eq, TH1D.GetStdDev2_foldl_new _ 100 (by norm_num)]

/-- A stored double ratio of 1 lies inside the axis range, one of 2 does not. -/
theorem inRange_one_two :
    FP.inRange (toDouble (0.965 : ℝ)) (toDouble 1.035) (.num 1) = true ∧
    FP.inRange (toDouble (0.965 : ℝ)) (toDouble 1.035) (.num 2) = false := by
  rw [toDouble_0965, toDouble_1035]
  constructor
  · simp only [FP.inRange, Bool.and_eq_true, decide_eq_true_eq]
    norm_num
  · simp only [FP.inRange, Bool.and_eq_false_iff, decide_eq_false_iff_not]
    norm_num

/-- When every stored double ratio inside the axis range is 1, `pdf` is 0. -/
theorem pdf_eq_zero (gen rec : TH1F ℝ)
    (h : ∀ r ∈ pdfRatios gen rec,
      FP.inRange (toDouble 0.965) (toDouble 1.035) r = true → r.val = 1) :
    pdf gen rec = 0 := by
  rw [pdf_eq]
  unfold populationRMS
  rw [populationVariance_const _ 1, Real.sqrt_zero, mul_zero]
  intro x hx
  obtain ⟨r, hr, rfl⟩ := List.mem_map.1 hx
  obtain ⟨hm, hin⟩ := List.mem_filter.1 hr
  exact h r hm hin

/-- The stored double ratio, from the five roundings it goes through. -/
theorem ratio_eq_of (gen rec : TH1F ℝ) (i : Nat) (d1 n d2 d v : ℝ)
    (hri : rec.GetBinContent i ≠ 0) (hgi : gen.GetBinContent i ≠ 0)
    (hr1 : rec.GetBinContent 1 ≠ 0) (hg1 : gen.GetBinContent 1 ≠ 0)
    (h1 : FP.round binary64 (rec.GetBinContent i / gen.GetBinContent i) = .num d1)
    (h2 : FP.round binary32 d1 = .num n)
    (h3 : FP.round binary64 (rec.GetBinContent 1 / gen.GetBinContent 1) = .num d2)
    (h4 : FP.round binary32 d2 = .num d)
    (hn : n ≠ 0) (hd : d ≠ 0)
    (h5 : FP.round binary32 (n / d) = .num v) :
    ratio gen rec i = .num v := by
  unfold ratio numerator denominator_float
  rw [FP.div_num_num _ _ _ hri hgi, h1, FP.div_num_num _ _ _ hr1 hg1, h3]
  simp only [FP.toFloat]
  rw [h2, h4, FP.div_num_num _ _ _ hn hd, h5]

/-- The stored double ratios when all weights are 1 except `rec[10] = 2`. -/
theorem ratio_ones_outlier10 (i : Nat) :
    ratio ones outlier10 i = if i = 10 then .num 2 else .num 1 := by
  by_cases h : i = 10
  · rw [if_pos h]
    apply ratio_eq_of ones outlier10 i 2 2 1 1 2
    · simp [outlier10, h]
    · simp [ones]
    · simp [outlier10]
    · simp [ones]
    · simp only [outlier10, ones, h, if_true, div_one]; exact FP.round_two.2
    · exact FP.round_two.1
    · simp only [outlier10, ones]; norm_num; exact FP.round_one.2
    · exact FP.round_one.1
    · norm_num
    · norm_num
    · rw [div_one]; exact FP.round_two.1
  · rw [if_neg h]
    apply ratio_eq_of ones outlier10 i 1 1 1 1 1
    · simp [outlier10, h]
    · simp [ones]
    · simp [outlier10]
    · simp [ones]
    · simp only [outlier10, ones, h, if_false, div_one]; exact FP.round_one.2
    · exact FP.round_one.1
    · simp only [outlier10, ones]; norm_num; exact FP.round_one.2
    · exact FP.round_one.1
    · norm_num
    · norm_num
    · rw [div_one]; exact FP.round_one.1

/-- The stored double ratios when all weights are 1000 except
`rec[10] = 965`: the `float` nearest to 0.965 lies below it. -/
theorem ratio_thousand_edge965 (i : Nat) :
    ratio thousand edge965 i = if i = 10 then .num (16190013 / 2 ^ 24) else .num 1 := by
  have hden64 : FP.round binary64
      (edge965.GetBinContent 1 / thousand.GetBinContent 1) = .num 1 := by
    simp only [edge965, thousand]; norm_num; exact FP.round_one.2
  by_cases h : i = 10
  · rw [if_pos h]
    apply ratio_eq_of thousand edge965 i (8691947280825057 / 2 ^ 53) (16190013 / 2 ^ 24) 1 1
      (16190013 / 2 ^ 24)
    · simp [edge965, h]
    · simp [thousand]
    · simp [edge965]
    · simp [thousand]
    · simp only [edge965, thousand, h, if_true]
      exact round64_eval _ (-1) 8691947280825057 _ (by norm_num) (by norm_num) (by norm_num)
        (by norm_num) (by rw [abs_lt]; norm_num) (by norm_num) (by norm_num) (by norm_num)
    · exact round32_eval _ (-1) 16190013 _ (by norm_num) (by norm_num) (by norm_num)
        (by norm_num) (by rw [abs_lt]; norm_num) (by norm_num) (by norm_num) (by norm_num)
    · exact hden64
    · exact FP.round_one.1
    · norm_num
    · norm_num
    · rw [div_one]
      exact round32_eval _ (-1) 16190013 _ (by norm_num) (by norm_num) (by norm_num)
        (by norm_num) (by rw [abs_lt]; norm_num) (by norm_num) (by norm_num) (by norm_num)
  · rw [if_neg h]
    apply ratio_eq_of thousand edge965 i 1 1 1 1 1
    · simp [edge965, h]
    · simp [thousand]
    · simp [edge965]
    · simp [thousand]
    · simp only [edge965, thousand, h, if_false]; norm_num; exact FP.round_one.2
    · exact FP.round_one.1
    · exact hden64
    · exact FP.round_one.1
    · norm_num
    · norm_num
    · rw [div_one]; exact FP.round_one.1

/-- Every exact double ratio is 1 or 2 when all weights are 1 except
`rec[10] = 2`. -/
theorem pdfDistribution_outlier10 :
    ∀ r ∈ pdfDistribution ones outlier10, r = 1 ∨ r = 2 := by
  intro r hr
  unfold pdfDistribution at hr
  obtain ⟨i, -, rfl⟩ := List.mem_map.1 hr
  by_cases h : i = 10 <;> simp [pdfDoubleRatio, ones, outlier10, h]

/-! ## The PDF spread (claim C2) -/

/-- C2 fails as stated: with all weights 1 except `rec[10] = 2` (all entries
non-zero) the double ratio 2 of index 10 falls in the overflow bin of
`h_pdfratio`, the reported `pdf` is 0, and 100 times the population
root-mean-square spread of the 100 double ratios is not 0. -/
theorem C2_counterexample :
    (∀ i, 1 ≤ i → i ≤ 111 → ones.GetBinContent i ≠ 0) ∧
    (∀ i, 1 ≤ i → i ≤ 111 → outlier10.GetBinContent i ≠ 0) ∧
    pdf ones outlier10 = 0 ∧
    100 * populationRMS (pdfDistribution ones outlier10) ≠ 0 ∧
    pdf ones outlier10 ≠ 100 * populationRMS (pdfDistribution ones outlier10) := by
  have h1 : pdf ones outlier10 = 0 := by
    apply pdf_eq_zero
    intro r hr hin
    unfold pdfRatios at hr
    obtain ⟨i, -, rfl⟩ := List.mem_map.1 hr
    rw [ratio_ones_outlier10] at hin ⊢
    by_cases h : i = 10
    · rw [if_pos h, inRange_one_two.2] at hin
      exact absurd hin Bool.false_ne_true
    · rw [if_neg h]; rfl
  have h2 : 100 * populationRMS (pdfDistribution ones outlier10) ≠ 0 := by
    have hl : pdfDistribution ones outlier10 = 2 :: List.replicate 99 1 := by
      unfold pdfDistribution
      have hr : List.range' 10 100 = 10 :: List.range' 11 99 := rfl
      rw [hr, List.map_cons]
      congr 1
      · simp [pdfDoubleRatio, ones, outlier10]
      · apply List.eq_replicate_iff.2
        refine ⟨by simp, ?_⟩
        intro b hb
        obtain ⟨i, hi, rfl⟩ := List.mem_map.1 hb
        have hi' := List.mem_range'_1.1 hi
        have : i ≠ 10 := by omega
        simp [pdfDoubleRatio, ones, outlier10, this]
    have hv : populationVariance (pdfDistribution ones outlier10) = 99 / 10000 := by
      rw [hl]
      simp only [populationVariance, mean, List.map_cons, List.map_replicate, List.sum_cons,
        List.sum_replicate, List.length_cons, List.length_replicate, nsmul_eq_mul]
      norm_num
    unfold populationRMS
    rw [hv]
    have : 0 < Real.sqrt (99 / 10000) := Real.sqrt_pos.2 (by norm_num)
    positivity
  refine ⟨?_, ?_, h1, h2, ?_⟩
  · intro i _ _; simp [ones]
  · intro i _ _
    simp only [outlier10]
    split_ifs <;> norm_num
  · rw [h1]; exact fun h => h2 h.symm

/-- C2 (amended): for weight vectors with non-zero entries, `h_pdfratio` is
filled with exactly 100 entries, in the order of the indices 10..109; the
entry of index `i` is the `float` that lines 279-285 store for
`(rec[i]/gen[i]) / (rec[1]/gen[1])`, each of the two `double` quotients
converted to `float` and the quotient of the two taken in `float`. With the
running sums of the histogram and `GetRMS` over exact arithmetic, the
reported `pdf` is 100 times the population root-mean-square spread, about
their own mean, of those stored entries that are finite and lie in the axis
range `0.965 <= r < 1.035` of the histogram (limits as `double`), and so of
all 100 stored entries when every one of them lies in that range. -/
theorem C2_pdf_spread (gen rec : TH1F ℝ)
    (_hgen : ∀ i, 1 ≤ i → i ≤ 111 → gen.GetBinContent i ≠ 0)
    (_hrec : ∀ i, 1 ≤ i → i ≤ 111 → rec.GetBinContent i ≠ 0) :
    (h_pdfratio gen rec).fEntries = 100 ∧
    h_pdfratio gen rec =
      (pdfRatios gen rec).foldl TH1D.Fill
        (TH1D.new 100 (toDouble 0.965) (toDouble 1.035)) ∧
    (pdfRatios gen rec).length = 100 ∧
    (∀ i, 10 ≤ i → i ≤ 109 →
      (pdfRatios gen rec)[i - 10]? = some (ratio gen rec i) ∧
      ratio gen rec i =
        FP.div binary32
          (FP.toFloat (FP.div binary64 (.num (rec.GetBinContent i))
            (.num (gen.GetBinContent i))))
          (FP.toFloat (FP.div binary64 (.num (rec.GetBinContent 1))
            (.num (gen.GetBinContent 1))))) ∧
    pdf gen rec = 100 * populationRMS
      (((pdfRatios gen rec).filter (FP.inRange (toDouble 0.965) (toDouble 1.035))).map
        FP.val) ∧
    ((∀ r ∈ pdfRatios gen rec, FP.inRange (toDouble 0.965) (toDouble 1.035) r = true) →
      pdf gen rec = 100 * populationRMS ((pdfRatios gen rec).map FP.val)) := by
  have hlen : (pdfRatios gen rec).length = 100 := by
    simp [pdfRatios]
  refine ⟨?_, h_pdfratio_eq gen rec, hlen, ?_, pdf_eq gen rec, ?_⟩
  · rw [h_pdfratio_eq]
    have h := (TH1D.foldl_Fill (pdfRatios gen rec)
      (TH1D.new 100 (toDouble (0.965 : ℝ)) (toDouble 1.035)) (by simp [TH1D.new])).2.2.2.1
    rw [h, hlen]
    rfl
  · intro i h10 h109
    refine ⟨?_, rfl⟩
    unfold pdfRatios
    have hlt : i - 10 < 110 - 10 := by omega
    rw [List.getElem?_map, List.getElem?_range' 10 1 hlt]
    have : 10 + 1 * (i - 10) = i := by omega
    simp only [this, Option.map_some']
  · intro hall
    rw [pdf_eq]
    congr 3
    apply List.filter_eq_self.2
    intro r hr
    exact hall r hr

/-- C2 (amended) at all weights 1000 except `rec[10] = 965`: 100 entries;
the entry of index 10 is the `float` 16190013/2^24 = 0.96499997, which is
below the axis limit, the `double` 0.965, and so not inside the axis range;
the other entries are 1 and `pdf` is 0. -/
theorem C2_pdf_spread_witness :
    (h_pdfratio thousand edge965).fEntries = 100 ∧
    toDouble (0.965 : ℝ) = 8691947280825057 / 2 ^ 53 ∧
    toDouble (1.035 : ℝ) = 4661225614328463 / 2 ^ 52 ∧
    ratio thousand edge965 10 = .num (16190013 / 2 ^ 24) ∧
    FP.inRange (toDouble (0.965 : ℝ)) (toDouble 1.035) (ratio thousand edge965 10) = false ∧
    pdf thousand edge965 = 0 := by
  have h := C2_pdf_spread thousand edge965 (by intro i _ _; simp [thousand])
    (by intro i _ _; simp only [edge965]; split_ifs <;> norm_num)
  have h10 : ratio thousand edge965 10 = .num (16190013 / 2 ^ 24) := by
    rw [ratio_thousand_edge965, if_pos rfl]
  have hout : FP.inRange (toDouble (0.965 : ℝ)) (toDouble 1.035)
      (ratio thousand edge965 10) = false := by
    rw [h10, toDouble_0965, toDouble_1035]
    simp only [FP.inRange, Bool.and_eq_false_iff, decide_eq_false_iff_not]
    norm_num
  refine ⟨h.1, toDouble_0965, toDouble_1035, h10, hout, ?_⟩
  apply pdf_eq_zero
  intro r hr hin
  unfold pdfRatios at hr
  obtain ⟨i, -, rfl⟩ := List.mem_map.1 hr
  by_cases hi : i = 10
  · rw [hi, hout] at hin
    exact absurd hin Bool.false_ne_true
  · rw [ratio_thousand_edge965, if_neg hi]; rfl

/-! ## Uniform scaling (claim C4) -/

/-- The printed blocks of a concatenation. -/
theorem reports_append (a b : List Event) : reports (a ++ b) = reports a ++ reports b := by
  induction a with
  | nil => rfl
  | cons e a ih => cases e <;> simp [reports, ih]

/-- A call whose input is missing ends in a null-pointer read. -/
theorem GetPdfQcdSyst_missing (savefigures : Bool) (disk : Disk) (sample label level : String)
    (hmiss : inputMissing disk sample level) :
    GetPdfQcdSyst savefigures disk sample label level = .error .nullPointer := by
  unfold inputMissing at hmiss
  unfold GetPdfQcdSyst TFile.open
  cases hd : disk (_recdir ++ sample ++ ".root") with
  | none => rfl
  | some f =>
    rw [hd] at hmiss
    simp only at hmiss ⊢
    cases hg : f.Get "list_vectors_weights_gen" with
    | none => rfl
    | some gen =>
      cases hr : f.Get ("list_vectors_weights_" ++ level) with
      | none => rfl
      | some rec =>
        rw [hg, hr] at hmiss
        simp at hmiss

/-- A call whose input is present returns, having saved the two figures when
the flag is set and printed the block of its two histograms. -/
theorem GetPdfQcdSyst_present (disk : Disk) (sample label level : String)
    (hpres : ¬ inputMissing disk sample level) :
    ∃ gen rec, ∀ savefigures, GetPdfQcdSyst savefigures disk sample label level =
      .ok ((if savefigures then
              [Event.SaveAs ("figures/pdfacceptance_" ++ sample ++ "_" ++ level ++ ".pdf"),
               Event.SaveAs ("figures/pdfacceptance_" ++ sample ++ "_" ++ level ++ ".png")]
            else [])
           ++ [Event.printf (report sample level gen rec)]) := by
  unfold inputMissing at hpres
  unfold GetPdfQcdSyst TFile.open
  cases hd : disk (_recdir ++ sample ++ ".root") with
  | none => rw [hd] at hpres; simp at hpres
  | some f =>
    rw [hd] at hpres
    simp only at hpres ⊢
    cases hg : f.Get "list_vectors_weights_gen" with
    | none => rw [hg] at hpres; simp at hpres
    | some gen =>
      cases hr : f.Get ("list_vectors_weights_" ++ level) with
      | none => rw [hr] at hpres; simp at hpres
      | some rec => exact ⟨gen, rec, fun _ => rfl⟩

/-- A run whose first call faults. -/
theorem runCalls_cons_error (savefigures : Bool) (disk : Disk) (sample label level : String)
    (rest : List (String × String × String)) (f : Fault)
    (hf : GetPdfQcdSyst savefigures disk sample label level = .error f) :
    runCalls savefigures disk ((sample, label, level) :: rest) = ([], some f) := by
  simp only [runCalls, hf]

/-- A run whose first call returns. -/
theorem runCalls_cons_ok (savefigures : Bool) (disk : Disk) (sample label level : String)
    (rest : List (String × String × String)) (es : List Event)
    (hf : GetPdfQcdSyst savefigures disk sample label level = .ok es) :
    runCalls savefigures disk ((sample, label, level) :: rest) =
      (es ++ (runCalls savefigures disk rest).1, (runCalls savefigures disk rest).2) := by
  simp only [runCalls, hf]

/-- A run stops at the first call that faults: the calls after it do not
matter. -/
theorem runCalls_fault (savefigures : Bool) (disk : Disk) (sample label level : String)
    (f : Fault) (hf : GetPdfQcdSyst savefigures disk sample label level = .error f)
    (before after : List (String × String × String)) :
    runCalls savefigures disk (before ++ (sample, label, level) :: after) =
      runCalls savefigures disk (before ++ [(sample, label, level)]) ∧
    (runCalls savefigures disk (before ++ (sample, label, level) :: after)).2 ≠ none := by
  induction before with
  | nil =>
    rw [List.nil_append, List.nil_append, runCalls_cons_error _ _ _ _ _ _ f hf,
      runCalls_cons_error _ _ _ _ _ _ f hf]
    exact ⟨rfl, by simp⟩
  | cons t before ih =>
    obtain ⟨s, l, v⟩ := t
    rw [List.cons_append, List.cons_append]
    cases hc : GetPdfQcdSyst savefigures disk s l v with
    | error g =>
      rw [runCalls_cons_error _ _ _ _ _ _ g hc, runCalls_cons_error _ _ _ _ _ _ g hc]
      exact ⟨rfl, by simp⟩
    | ok es =>
      rw [runCalls_cons_ok _ _ _ _ _ _ es hc, runCalls_cons_ok _ _ _ _ _ _ es hc, ih.1]
      exact ⟨rfl, by rw [← ih.1]; exact ih.2⟩

/-- With the flag off, a sequence of calls writes nothing, and it prints and
ends as it does with the flag on. -/
theorem runCalls_flag (disk : Disk) (l : List (String × String × String)) :
    (∀ e ∈ (runCalls false disk l).1, e.isWrite = false) ∧
    reports (runCalls false disk l).1 = reports (runCalls true disk l).1 ∧
    (runCalls false disk l).2 = (runCalls true disk l).2 := by
  induction l with
  | nil => simp [runCalls]
  | cons t l ih =>
    obtain ⟨s, lab, v⟩ := t
    by_cases hm : inputMissing disk s v
    · simp [runCalls, GetPdfQcdSyst_missing _ disk s lab v hm]
    · obtain ⟨gen, rec, h⟩ := GetPdfQcdSyst_present disk s lab v hm
      simp only [runCalls, h, reports_append]
      refine ⟨?_, ?_, ih.2.2⟩
      · intro e he
        simp only [Bool.false_eq_true, if_false, List.nil_append, List.cons_append,
          List.mem_cons] at he
        rcases he with he | he
        · rw [he]; rfl
        · exact ih.1 e he
      · rw [ih.2.1]
        simp [reports]

/-- The paths of the first two samples differ. -/
theorem path_first_ne_second :
    _recdir ++ "HWminusJ_HToTauTau_M125" ++ ".root" ≠
      _recdir ++ "HWminusJ_HToWW_M125" ++ ".root" := by
  decide

/-- C5 fails as stated: on a disk where only the file of the second sample
is missing, the second call reads through the null pointer, and the run of
`getPdfQcd` ends there with one block printed, although the input of the 19
later calls is present. -/
theorem C5_counterexample :
    inputMissing diskWithoutSecond "HWminusJ_HToWW_M125" "wh3l" ∧
    GetPdfQcdSyst _savefigures diskWithoutSecond "HWminusJ_HToWW_M125" "" "wh3l" =
      .error .nullPointer ∧
    (getPdfQcd _savefigures diskWithoutSecond).2 = some .nullPointer ∧
    (reports (getPdfQcd _savefigures diskWithoutSecond).1).length = 1 ∧
    calls.length = 21 := by
  have hm : inputMissing diskWithoutSecond "HWminusJ_HToWW_M125" "wh3l" := by
    simp [inputMissing, diskWithoutSecond]
  have h2 := GetPdfQcdSyst_missing _savefigures diskWithoutSecond "HWminusJ_HToWW_M125" "" "wh3l" hm
  have h1 : GetPdfQcdSyst _savefigures diskWithoutSecond "HWminusJ_HToTauTau_M125" "" "wh3l" =
      .ok [Event.printf (report "HWminusJ_HToTauTau_M125" "wh3l" ones ones)] := by
    simp [GetPdfQcdSyst, TFile.open, diskWithoutSecond, path_first_ne_second, _savefigures]
  refine ⟨hm, h2, ?_, ?_, rfl⟩
  · simp [getPdfQcd, calls, runCalls, h1, h2]
  · simp [getPdfQcd, calls, runCalls, h1, h2, _savefigures, reports]

/-- C5 (amended): `GetPdfQcdSyst` does not check its input. When the backing
file of (sample, level) is absent, or lacks `list_vectors_weights_gen` or
`list_vectors_weights_<level>`, the call reads through the null histogram
pointer at its first use, before anything is saved or printed for that
triple, and the run ends there: whatever calls follow, the run is the one
that stops at this call, and it ends in the fault. -/
theorem C5_missing_input (savefigures : Bool) (disk : Disk) (sample label level : String)
    (hmiss : inputMissing disk sample level) :
    GetPdfQcdSyst savefigures disk sample label level = .error .nullPointer ∧
    ∀ before after : List (String × String × String),
      runCalls savefigures disk (before ++ (sample, label, level) :: after) =
        runCalls savefigures disk (before ++ [(sample, label, level)]) ∧
      (runCalls savefigures disk (before ++ (sample, label, level) :: after)).2 =
        some .nullPointer := by
  have h := GetPdfQcdSyst_missing savefigures disk sample label level hmiss
  refine ⟨h, fun before after => ?_⟩
  obtain ⟨h1, h2⟩ := runCalls_fault savefigures disk sample label level _ h before after
  refine ⟨h1, ?_⟩
  cases hs : (runCalls savefigures disk (before ++ (sample, label, level) :: after)).2 with
  | none => exact absurd hs h2
  | some f => cases f; rfl

/-- C5 (amended) on a disk without files: the first call of `getPdfQcd`
faults and nothing is printed. -/
theorem C5_missing_input_witness :
    inputMissing emptyDisk "HWminusJ_HToTauTau_M125" "wh3l" ∧
    GetPdfQcdSyst _savefigures emptyDisk "HWminusJ_HToTauTau_M125" "" "wh3l" =
      .error .nullPointer ∧
    getPdfQcd _savefigures emptyDisk = ([], some .nullPointer) := by
  have hm : inputMissing emptyDisk "HWminusJ_HToTauTau_M125" "wh3l" := by
    simp [inputMissing, emptyDisk]
  have h := C5_missing_input _savefigures emptyDisk "HWminusJ_HToTauTau_M125" "" "wh3l" hm
  refine ⟨hm, h.1, ?_⟩
  have hc : calls = ("HWminusJ_HToTauTau_M125", "", "wh3l") :: calls.tail := rfl
  unfold getPdfQcd
  rw [hc, runCalls_cons_error _ _ _ _ _ _ _ h.1]
  rfl

/-- C10: with the flag off (its value in the source), neither `getPdfQcd`
nor `GetPdfQcdSyst` writes to the file system, and what is printed, and how
the run ends, is what it is with the flag on, for every disk and so for
every (sample, label, level) and every pair of weight vectors. -/
theorem C10_savefigures_off (disk : Disk) :
    _savefigures = false ∧
    (∀ e ∈ (getPdfQcd false disk).1, e.isWrite = false) ∧
    reports (getPdfQcd false disk).1 = reports (getPdfQcd true disk).1 ∧
    (getPdfQcd false disk).2 = (getPdfQcd true disk).2 ∧
    (∀ (sample label level : String) (es : List Event),
      GetPdfQcdSyst false disk sample label level = .ok es → ∀ e ∈ es, e.isWrite = false) ∧
    (∀ sample label level : String,
      (GetPdfQcdSyst false disk sample label level).map reports =
        (GetPdfQcdSyst true disk sample label level).map reports) := by
  obtain ⟨h1, h2, h3⟩ := runCalls_flag disk calls
  refine ⟨rfl, ?_, ?_, h3, ?_, ?_⟩
  · intro e he
    simp only [getPdfQcd, Bool.false_eq_true, if_false, List.nil_append] at he
    exact h1 e he
  · simp only [getPdfQcd, Bool.false_eq_true, if_false, List.nil_append, if_true,
      reports_append, h2]
    simp [reports]
  · intro sample label level es hes e he
    by_cases hm : inputMissing disk sample level
    · rw [GetPdfQcdSyst_missing _ disk sample label level hm] at hes
      cases hes
    · obtain ⟨gen, rec, h⟩ := GetPdfQcdSyst_present disk sample label level hm
      rw [h false] at hes
      injection hes with hes
      rw [← hes] at he
      simp only [Bool.false_eq_true, if_false, List.nil_append, List.mem_singleton] at he
      rw [he]; rfl
  · intro sample label level
    by_cases hm : inputMissing disk sample level
    · rw [GetPdfQcdSyst_missing _ disk sample label level hm,
        GetPdfQcdSyst_missing _ disk sample label level hm]
    · obtain ⟨gen, rec, h⟩ := GetPdfQcdSyst_present disk sample label level hm
      rw [h false, h true]
      simp [Except.map, reports]

/-- C10 on a disk that holds every input: 21 blocks are printed either way,
nothing is written with the flag off, and 43 writes happen with it on. -/
theorem C10_savefigures_off_witness :
    (reports (getPdfQcd false fullDisk).1).length = 21 ∧
    ((getPdfQcd false fullDisk).1.filter Event.isWrite).length = 0 ∧
    ((getPdfQcd true fullDisk).1.filter Event.isWrite).length = 43 ∧
    reports (getPdfQcd false fullDisk).1 = reports (getPdfQcd true fullDisk).1 := by
  have h : ∀ sf sample label level, GetPdfQcdSyst sf fullDisk sample label level =
      .ok ((if sf then
              [Event.SaveAs ("figures/pdfacceptance_" ++ sample ++ "_" ++ level ++ ".pdf"),
               Event.SaveAs ("figures/pdfacceptance_" ++ sample ++ "_" ++ level ++ ".png")]
            else [])
           ++ [Event.printf (report sample level ones ones)]) := by
    intro sf sample label level
    rfl
  refine ⟨?_, ?_, ?_, (C10_savefigures_off fullDisk).2.2.1⟩
  · simp [getPdfQcd, calls, runCalls, h, reports]
  · simp [getPdfQcd, calls, runCalls, h, Event.isWrite, List.filter]
  · simp [getPdfQcd, calls, runCalls, h, Event.isWrite, List.filter]

end GetPdfQcd
